import Mathlib

/-!
Verification of the frame-sampling engine of `video_to_frames.py`
(`VideoProcessor.process`, `VideoProcessor._get_output_directory`,
`VideoProcessor._save_frame`).

The engine is embedded shallowly:
* rational numbers stand for the Python floats (frame rates, progress values);
* the video source is a record holding the `cv2.VideoCapture` observables:
  whether `isOpened()` holds, `CAP_PROP_FRAME_COUNT` (as the `int` the code
  takes), `CAP_PROP_FPS`, and the finite list of frames that successive
  `cap.read()` calls yield before returning `ret = False`;
* side effects (directory creation, frame-file writes, progress-callback
  invocations, `cap.release()`) are recorded in an event trace;
* the `ZeroDivisionError` raised by `current_frame / total_frames` when
  `total_frames == 0` is modelled by an explicit loop exit that `process`
  turns into the generic `except Exception` failure result, exactly as the
  Python handler does;
* `os.path` functions are modelled character-for-character after CPython's
  `posixpath` (`basename`, `dirname`, `splitext`, `join`).
-/

namespace VTF

/-! ### posixpath model -/

/-- Split a character list at the last occurrence of `c`:
`some (pre, post)` with `l = pre ++ c :: post` and no `c` in `post`,
or `none` when `c` does not occur.  This is the `str.rfind` idiom that
`posixpath.basename`/`dirname`/`splitext` are built on. -/
def splitLastChar (c : Char) (l : List Char) : Option (List Char × List Char) :=
  match l.reverse.dropWhile (fun a => a != c) with
  | [] => none
  | _ :: pre => some (pre.reverse, (l.reverse.takeWhile (fun a => a != c)).reverse)

/-- `posixpath.basename`: everything after the last `'/'`. -/
def basenameL (l : List Char) : List Char :=
  match splitLastChar '/' l with
  | none => l
  | some p => p.2

/-- `p[:i]` where `i = p.rfind('/') + 1`: the head of the path up to and
including the last separator (empty when there is no separator). -/
def headPartL (l : List Char) : List Char :=
  match splitLastChar '/' l with
  | none => []
  | some p => p.1 ++ ['/']

/-- `str.rstrip('/')`. -/
def stripTrailSlash (l : List Char) : List Char :=
  (l.reverse.dropWhile (fun a => a == '/')).reverse

/-- `posixpath.dirname`: the head part, with trailing separators stripped
unless the head consists only of separators. -/
def dirnameL (l : List Char) : List Char :=
  let h := headPartL l
  if h.all (fun a => a == '/') then h else stripTrailSlash h

/-- `posixpath.splitext`: splits at the last `'.'` provided it lies in the
basename and some earlier character of the basename is not a dot
(so `.bashrc`-style names keep their dot). -/
def splitextL (l : List Char) : List Char × List Char :=
  match splitLastChar '.' (basenameL l) with
  | none => (l, [])
  | some p =>
    if p.1.any (fun a => a != '.') then (headPartL l ++ p.1, '.' :: p.2)
    else (l, [])

/-- `posixpath.join` restricted to two components, as the code calls it. -/
def pjoinL (a b : List Char) : List Char :=
  if b.head? = some '/' then b
  else if a = [] ∨ a.getLast? = some '/' then a ++ b
  else a ++ '/' :: b

def basename (p : String) : String := String.mk (basenameL p.toList)

def dirname (p : String) : String := String.mk (dirnameL p.toList)

def splitextRoot (p : String) : String := String.mk (splitextL p.toList).1

def pjoin (a b : String) : String := String.mk (pjoinL a.toList b.toList)

/-- `os.path.splitext(os.path.basename(p))[0]` — the extension-stripped
basename used for the `"_frames"` directory name. -/
def stemOf (p : String) : String := String.mk (splitextL (basenameL p.toList)).1

/-! ### Data model -/

/-- `VideoProcessConfig` from the source. -/
structure VideoProcessConfig where
  video_path : String
  output_path : Option String
  fps : ℚ
  frame_format : String
deriving DecidableEq

/-- The observables of the `cv2.VideoCapture` handle used by `process`:
`isOpened()`, `int(cap.get(cv2.CAP_PROP_FRAME_COUNT))`,
`cap.get(cv2.CAP_PROP_FPS)`, and the frames that `cap.read()` yields
(in decode order) before it first returns `ret = False`. -/
structure VideoSource where
  opened : Bool
  total_frames : ℤ
  video_fps : ℚ
  frames : List ℕ
deriving DecidableEq

/-- Python truthiness of `self.config.output_path` (`None` and `""` are
falsy). -/
def truthy : Option String → Bool
  | none => false
  | some s => !s.isEmpty

/-- `VideoProcessor._get_output_directory`. -/
def get_output_directory (cfg : VideoProcessConfig) : String :=
  if truthy cfg.output_path then
    pjoin (cfg.output_path.getD "") (stemOf cfg.video_path ++ "_frames")
  else
    splitextRoot cfg.video_path ++ "_frames"

/-- Python `int()` applied to a real value: truncation toward zero. -/
def int_trunc (q : ℚ) : ℤ := if 0 ≤ q then ⌊q⌋ else ⌈q⌉

/-- `frame_interval = max(1, int(video_fps / self.config.fps))`. -/
def frameInterval (cfg : VideoProcessConfig) (src : VideoSource) : ℕ :=
  max 1 (int_trunc (src.video_fps / cfg.fps)).toNat

/-- `f"frame_{frame_count:04d}"`'s numeral: zero-padded to a minimum
width of 4, never truncated. -/
def pad4 (n : ℕ) : String :=
  String.mk (List.replicate (4 - (toString n).length) '0') ++ toString n

/-- The file path built by `VideoProcessor._save_frame`. -/
def framePath (outDir : String) (frame_count : ℕ) (fmt : String) : String :=
  pjoin outDir ("frame_" ++ pad4 frame_count ++ "." ++ fmt)

/-- Observable side effects of one run, in order. -/
inductive Ev where
  | mkdirp (dir : String)
  | writeFrame (path : String) (fmt : String) (frame : ℕ)
  | progressCb (q : ℚ)
  | release
deriving DecidableEq

/-- How the read loop ends: normally with the final `frame_count`, or by
the `ZeroDivisionError` of `current_frame / total_frames` when
`total_frames == 0`. -/
inductive LoopExit where
  | ok (frame_count : ℕ)
  | zeroDiv
deriving DecidableEq

/-- The `while True` read loop of `process`: for each frame read, write it
when `current_frame % frame_interval == 0` (with the next sequential
`frame_count`), then increment `current_frame` and invoke the progress
callback with `current_frame / total_frames` — which raises when
`total_frames = 0`. -/
def readLoop (interval : ℕ) (T : ℤ) (outDir fmt : String) :
    List ℕ → ℕ → ℕ → List Ev × LoopExit
  | [], _current_frame, frame_count => ([], .ok frame_count)
  | fr :: rest, current_frame, frame_count =>
    if current_frame % interval = 0 then
      if T = 0 then
        ([Ev.writeFrame (framePath outDir frame_count fmt) fmt fr], .zeroDiv)
      else
        let r := readLoop interval T outDir fmt rest (current_frame + 1) (frame_count + 1)
        (Ev.writeFrame (framePath outDir frame_count fmt) fmt fr ::
          Ev.progressCb (((current_frame + 1 : ℕ) : ℚ) / (T : ℚ)) :: r.1, r.2)
    else
      if T = 0 then ([], .zeroDiv)
      else
        let r := readLoop interval T outDir fmt rest (current_frame + 1) frame_count
        (Ev.progressCb (((current_frame + 1 : ℕ) : ℚ) / (T : ℚ)) :: r.1, r.2)

/-- The result messages `process` can return, one per `return` site. -/
inductive Msg where
  | cannotOpen
  | invalidRate
  | rateExceeds (native : ℚ)
  | finished (frame_count : ℕ)
  | zeroDivErr
deriving DecidableEq

/-- The message strings of the source (`str()` of the rate standing for
Python's float formatting, `str(e)` of a `ZeroDivisionError` being
`"division by zero"`). -/
def renderMsg : Msg → String
  | .cannotOpen => "无法打开视频文件"
  | .invalidRate => "每秒提取帧数必须大于0"
  | .rateExceeds r => "每秒提取帧数不能大于视频帧率(" ++ toString r ++ ")"
  | .finished n => "处理完成！共导出 " ++ toString n ++ " 帧"
  | .zeroDivErr => "错误: division by zero"

/-- `VideoProcessor.process`: returns the `(success, message)` pair and the
trace of side effects.  Mirrors the source line by line: open check, the
two rate validations, `frame_interval`, `os.makedirs`, the read loop,
`cap.release()` (reached only when the loop ends normally), and the
`except Exception` handler that converts a raised `ZeroDivisionError`
into a failure result without releasing the handle. -/
def process (cfg : VideoProcessConfig) (src : VideoSource) : (Bool × Msg) × List Ev :=
  if src.opened = false then ((false, .cannotOpen), [])
  else if cfg.fps ≤ 0 then ((false, .invalidRate), [])
  else if src.video_fps < cfg.fps then ((false, .rateExceeds src.video_fps), [])
  else
    let output_dir := get_output_directory cfg
    let r := readLoop (frameInterval cfg src) src.total_frames output_dir
      cfg.frame_format src.frames 0 0
    match r.2 with
    | .ok frame_count =>
      ((true, .finished frame_count), Ev.mkdirp output_dir :: (r.1 ++ [Ev.release]))
    | .zeroDiv => ((false, .zeroDivErr), Ev.mkdirp output_dir :: r.1)

def runResult (cfg : VideoProcessConfig) (src : VideoSource) : Bool × Msg :=
  (process cfg src).1

def runTrace (cfg : VideoProcessConfig) (src : VideoSource) : List Ev :=
  (process cfg src).2

/-- The frame-file writes of a trace: `(path, format, frame)` triples. -/
def writesOf (evs : List Ev) : List (String × String × ℕ) :=
  evs.filterMap fun e =>
    match e with
    | .writeFrame p f fr => some (p, f, fr)
    | _ => none

/-- The progress-callback values of a trace, in order. -/
def progressOf (evs : List Ev) : List ℚ :=
  evs.filterMap fun e =>
    match e with
    | .progressCb q => some q
    | _ => none

/-- `os.makedirs(d, exist_ok=True)` on an abstract directory state. -/
def makedirs (fs : List String) (d : String) : List String :=
  if d ∈ fs then fs else fs ++ [d]

/-- The ordinals the frame-selection rule keeps among `[0, n)`. -/
def selectedOrdinals (interval n : ℕ) : List ℕ :=
  (List.range n).filter (fun o => o % interval == 0)

/-- The spec's formula for the resolved output directory (claim C7):
`join(outputDir, stem + "_frames")` when an output directory is given,
else `join(dirname(sourcePath), stem + "_frames")`. -/
def specOutputDirectory (cfg : VideoProcessConfig) : String :=
  if truthy cfg.output_path then
    pjoin (cfg.output_path.getD "") (stemOf cfg.video_path ++ "_frames")
  else
    pjoin (dirname cfg.video_path) (stemOf cfg.video_path ++ "_frames")

/-- The head part of the path keeps at most one separator before the
basename (or is empty, or is all separators).  On such paths — i.e. on
every path without a repeated `'/'` right before its final component —
`splitext(p)[0]` agrees with `join(dirname(p), stem)`. -/
def goodHeadL (l : List Char) : Bool :=
  match splitLastChar '/' l with
  | none => true
  | some q => q.1.all (fun a => a == '/') || !(q.1.getLastD 'x' == '/')

def goodHead (p : String) : Bool := goodHeadL p.toList

/-- The extension-stripped basename, at the character-list level. -/
def stemL (l : List Char) : List Char := (splitextL (basenameL l)).1

/-- The writes the loop performs on the selected `(ordinal, frame)` pairs,
numbered sequentially from `cnt`. -/
def numberedWrites (d f : String) (cnt : ℕ) (sel : List (ℕ × ℕ)) :
    List (String × String × ℕ) :=
  (List.enumFrom cnt sel).map (fun q => (framePath d q.1 f, f, q.2.2))

/-! ### Trace-extraction simp lemmas -/

@[simp] theorem writesOf_nil : writesOf [] = [] := rfl

@[simp] theorem writesOf_cons_write (p f : String) (fr : ℕ) (evs : List Ev) :
    writesOf (Ev.writeFrame p f fr :: evs) = (p, f, fr) :: writesOf evs := rfl

@[simp] theorem writesOf_cons_progress (q : ℚ) (evs : List Ev) :
    writesOf (Ev.progressCb q :: evs) = writesOf evs := rfl

@[simp] theorem writesOf_cons_mkdirp (d : String) (evs : List Ev) :
    writesOf (Ev.mkdirp d :: evs) = writesOf evs := rfl

@[simp] theorem writesOf_cons_release (evs : List Ev) :
    writesOf (Ev.release :: evs) = writesOf evs := rfl

@[simp] theorem writesOf_append (a b : List Ev) :
    writesOf (a ++ b) = writesOf a ++ writesOf b :=
  List.filterMap_append _ _ _

@[simp] theorem progressOf_nil : progressOf [] = [] := rfl

@[simp] theorem progressOf_cons_write (p f : String) (fr : ℕ) (evs : List Ev) :
    progressOf (Ev.writeFrame p f fr :: evs) = progressOf evs := rfl

@[simp] theorem progressOf_cons_progress (q : ℚ) (evs : List Ev) :
    progressOf (Ev.progressCb q :: evs) = q :: progressOf evs := rfl

@[simp] theorem progressOf_cons_mkdirp (d : String) (evs : List Ev) :
    progressOf (Ev.mkdirp d :: evs) = progressOf evs := rfl

@[simp] theorem progressOf_cons_release (evs : List Ev) :
    progressOf (Ev.release :: evs) = progressOf evs := rfl

@[simp] theorem progressOf_append (a b : List Ev) :
    progressOf (a ++ b) = progressOf a ++ progressOf b :=
  List.filterMap_append _ _ _

@[simp] theorem numberedWrites_nil (d f : String) (cnt : ℕ) :
    numberedWrites d f cnt [] = [] := rfl

theorem numberedWrites_cons (d f : String) (cnt o fr : ℕ) (sel : List (ℕ × ℕ)) :
    numberedWrites d f cnt ((o, fr) :: sel) =
      (framePath d cnt f, f, fr) :: numberedWrites d f (cnt + 1) sel := by
  simp [numberedWrites, List.enumFrom_cons]

theorem numberedWrites_length (d f : String) (cnt : ℕ) (sel : List (ℕ × ℕ)) :
    (numberedWrites d f cnt sel).length = sel.length := by
  simp [numberedWrites, List.enumFrom_length]

/-! ### The read loop, characterised -/

theorem readLoop_zeroDiv (i : ℕ) (d f : String) (fr : ℕ) (rest : List ℕ)
    (cur cnt : ℕ) :
    (readLoop i 0 d f (fr :: rest) cur cnt).2 = .zeroDiv := by
  by_cases h : cur % i = 0 <;> simp [readLoop, h]

theorem writesOf_readLoop (i : ℕ) (T : ℤ) (d f : String) (hT : T ≠ 0)
    (l : List ℕ) : ∀ (cur cnt : ℕ),
    writesOf (readLoop i T d f l cur cnt).1 =
      numberedWrites d f cnt
        ((List.enumFrom cur l).filter (fun q => q.1 % i == 0)) := by
  induction l with
  | nil => intro cur cnt; simp [readLoop]
  | cons fr rest ih =>
    intro cur cnt
    by_cases h : cur % i = 0
    · simp [readLoop, h, hT, ih, List.enumFrom_cons, List.filter_cons,
        numberedWrites_cons]
    · simp [readLoop, h, hT, ih, List.enumFrom_cons, List.filter_cons]

theorem exit_readLoop (i : ℕ) (T : ℤ) (d f : String) (hT : T ≠ 0)
    (l : List ℕ) : ∀ (cur cnt : ℕ),
    (readLoop i T d f l cur cnt).2 =
      .ok (cnt + ((List.enumFrom cur l).filter (fun q => q.1 % i == 0)).length) := by
  induction l with
  | nil => intro cur cnt; simp [readLoop]
  | cons fr rest ih =>
    intro cur cnt
    by_cases h : cur % i = 0
    · simp only [readLoop, h, if_pos, if_neg hT, ih, List.enumFrom_cons,
        List.filter_cons]
      simp [h, LoopExit.ok.injEq]
      omega
    · simp [readLoop, h, hT, ih, List.enumFrom_cons, List.filter_cons]

theorem progressOf_readLoop (i : ℕ) (T : ℤ) (d f : String) (hT : T ≠ 0)
    (l : List ℕ) : ∀ (cur cnt : ℕ),
    progressOf (readLoop i T d f l cur cnt).1 =
      (List.range l.length).map (fun j => (((cur + j + 1 : ℕ) : ℚ)) / (T : ℚ)) := by
  induction l with
  | nil => intro cur cnt; simp [readLoop]
  | cons fr rest ih =>
    intro cur cnt
    have step : ∀ cnt' : ℕ,
        progressOf (readLoop i T d f rest (cur + 1) cnt').1 =
          (List.range rest.length).map
            (fun j => (((cur + (j + 1) + 1 : ℕ) : ℚ)) / (T : ℚ)) := by
      intro cnt'
      rw [ih]
      refine List.map_congr_left fun j hj => ?_
      congr 2
      omega
    by_cases h : cur % i = 0 <;>
      simp [readLoop, h, hT, step, List.range_succ_eq_map, List.map_map,
        Function.comp_def]

/-! ### `process` on a validated request -/

theorem process_valid_ok (cfg : VideoProcessConfig) (src : VideoSource)
    (hop : src.opened = true) (h0 : 0 < cfg.fps) (hle : cfg.fps ≤ src.video_fps)
    (n : ℕ)
    (hex : (readLoop (frameInterval cfg src) src.total_frames
        (get_output_directory cfg) cfg.frame_format src.frames 0 0).2 = .ok n) :
    process cfg src =
      ((true, .finished n),
        Ev.mkdirp (get_output_directory cfg) ::
          ((readLoop (frameInterval cfg src) src.total_frames
            (get_output_directory cfg) cfg.frame_format src.frames 0 0).1
              ++ [Ev.release])) := by
  rw [process, if_neg (by simp [hop]), if_neg (not_le.mpr h0),
    if_neg (not_lt.mpr hle)]
  simp only [hex]

theorem process_valid_zeroDiv (cfg : VideoProcessConfig) (src : VideoSource)
    (hop : src.opened = true) (h0 : 0 < cfg.fps) (hle : cfg.fps ≤ src.video_fps)
    (hex : (readLoop (frameInterval cfg src) src.total_frames
        (get_output_directory cfg) cfg.frame_format src.frames 0 0).2 = .zeroDiv) :
    process cfg src =
      ((false, .zeroDivErr),
        Ev.mkdirp (get_output_directory cfg) ::
          (readLoop (frameInterval cfg src) src.total_frames
            (get_output_directory cfg) cfg.frame_format src.frames 0 0).1) := by
  rw [process, if_neg (by simp [hop]), if_neg (not_le.mpr h0),
    if_neg (not_lt.mpr hle)]
  simp only [hex]

/-! ### Interval, ordinal and counting lemmas -/

/-- On a validated request (`0 < r ≤ R`) the code's
`max(1, int(R / r))` is the spec's `max(1, floor(R / r))`. -/
theorem frameInterval_eq_floor (cfg : VideoProcessConfig) (src : VideoSource)
    (h0 : 0 < cfg.fps) (hle : cfg.fps ≤ src.video_fps) :
    (frameInterval cfg src : ℤ) = max 1 ⌊src.video_fps / cfg.fps⌋ := by
  have hq : (1 : ℚ) ≤ src.video_fps / cfg.fps := (one_le_div h0).mpr hle
  have hfl : (1 : ℤ) ≤ ⌊src.video_fps / cfg.fps⌋ :=
    Int.le_floor.mpr (by exact_mod_cast hq)
  have h0q : (0 : ℚ) ≤ src.video_fps / cfg.fps := le_trans zero_le_one hq
  rw [frameInterval, int_trunc, if_pos h0q]
  push_cast [Int.toNat_of_nonneg (le_trans zero_le_one hfl)]
  omega

theorem one_le_frameInterval (cfg : VideoProcessConfig) (src : VideoSource) :
    1 ≤ frameInterval cfg src :=
  le_max_left _ _

theorem enumFrom_filter_map_fst (p : ℕ → Bool) (l : List ℕ) : ∀ k : ℕ,
    ((List.enumFrom k l).filter (fun q => p q.1)).map Prod.fst =
      (List.range' k l.length).filter p := by
  induction l with
  | nil => intro k; simp
  | cons a rest ih =>
    intro k
    by_cases h : p k <;>
      simp [List.enumFrom_cons, List.filter_cons, h, List.range'_succ, ih]

theorem numberedWrites_data (d f : String) (cnt : ℕ) (sel : List (ℕ × ℕ)) :
    (numberedWrites d f cnt sel).map (fun w => w.2.2) = sel.map Prod.snd := by
  rw [numberedWrites, List.map_map]
  have h1 : (List.enumFrom cnt sel).map
      ((fun w : String × String × ℕ => w.2.2) ∘
        (fun q : ℕ × ℕ × ℕ => (framePath d q.1 f, f, q.2.2)))
      = ((List.enumFrom cnt sel).map Prod.snd).map Prod.snd := by
    rw [List.map_map]; rfl
  rw [h1, List.enumFrom_map_snd]

theorem numberedWrites_paths (d f : String) (cnt : ℕ) (sel : List (ℕ × ℕ)) :
    (numberedWrites d f cnt sel).map Prod.fst =
      (List.range' cnt sel.length).map (fun k => framePath d k f) := by
  rw [numberedWrites, List.map_map]
  have h1 : (List.enumFrom cnt sel).map
      (Prod.fst ∘ (fun q : ℕ × ℕ × ℕ => (framePath d q.1 f, f, q.2.2)))
      = ((List.enumFrom cnt sel).map Prod.fst).map (fun k => framePath d k f) := by
    rw [List.map_map]; rfl
  rw [h1, List.enumFrom_map_fst]

/-- The number of multiples of `i` in `[0, m)` is `⌈m / i⌉ = (m + i - 1) / i`. -/
theorem count_multiples (i : ℕ) (hi : 0 < i) (m : ℕ) :
    ((List.range m).filter (fun o => o % i == 0)).length = (m + i - 1) / i := by
  induction m with
  | zero => simp [Nat.div_eq_of_lt (show i - 1 < i by omega)]
  | succ m ih =>
    rw [List.range_succ, List.filter_append, List.length_append, ih]
    by_cases h : m % i = 0
    · obtain ⟨q, rfl⟩ : ∃ q, m = i * q := Nat.dvd_iff_mod_eq_zero.mpr h
      have e1 : i * q + i - 1 = i * q + (i - 1) := by omega
      have e2 : i * q + 1 + i - 1 = i * (q + 1) := by rw [Nat.mul_succ]; omega
      rw [List.filter_cons, if_pos (by simp [h]), e1, e2,
        Nat.mul_add_div hi, Nat.mul_div_cancel_left _ hi,
        Nat.div_eq_of_lt (show i - 1 < i by omega)]
      simp
    · obtain ⟨q, r, rfl, hr, hr0⟩ : ∃ q r, m = i * q + r ∧ r < i ∧ r ≠ 0 :=
        ⟨m / i, m % i, (Nat.div_add_mod m i).symm, Nat.mod_lt _ hi, h⟩
      have e1 : i * q + r + i - 1 = i * q + (r - 1 + i) := by omega
      have e2 : i * q + r + 1 + i - 1 = i * q + (r + i) := by omega
      rw [List.filter_cons, if_neg (by simp [h]), e1, e2,
        Nat.mul_add_div hi, Nat.mul_add_div hi,
        Nat.add_div_right _ hi, Nat.add_div_right _ hi,
        Nat.div_eq_of_lt (show r - 1 < i by omega),
        Nat.div_eq_of_lt (show r < i from hr)]
      simp

/-! ### Claim C4: target rate above native rate -/

/-- C4: for every opened source with (nonnegative) native rate `R` and every
request with `r > R`, the run fails with the rate-exceeds-source result
before any event happens (no frame read, no directory created), and the
failure message contains the numeric value of `R`. -/
theorem c4_rate_exceeds_source (cfg : VideoProcessConfig) (src : VideoSource)
    (hop : src.opened = true) (hR : 0 ≤ src.video_fps)
    (hgt : src.video_fps < cfg.fps) :
    runResult cfg src = (false, Msg.rateExceeds src.video_fps) ∧
    runTrace cfg src = [] ∧
    ∃ a b : String,
      renderMsg (Msg.rateExceeds src.video_fps) = a ++ toString src.video_fps ++ b := by
  have hf : ¬ cfg.fps ≤ 0 := not_le.mpr (lt_of_le_of_lt hR hgt)
  refine ⟨?_, ?_, "每秒提取帧数不能大于视频帧率(", ")", rfl⟩
  · rw [runResult, process, if_neg (by simp [hop]), if_neg hf, if_pos hgt]
  · rw [runTrace, process, if_neg (by simp [hop]), if_neg hf, if_pos hgt]

/-- C4 witness: the spec's scenario `R = 25`, `r = 30`. -/
theorem c4_witness :
    runResult ⟨"v.mp4", none, 30, "jpg"⟩ ⟨true, 50, 25, []⟩
      = (false, Msg.rateExceeds 25) ∧
    runTrace ⟨"v.mp4", none, 30, "jpg"⟩ ⟨true, 50, 25, []⟩ = [] ∧
    ∃ a b : String, renderMsg (Msg.rateExceeds 25) = a ++ toString (25 : ℚ) ++ b :=
  c4_rate_exceeds_source ⟨"v.mp4", none, 30, "jpg"⟩ ⟨true, 50, 25, []⟩ rfl
    (by norm_num) (by norm_num)

/-! ### Claim C5: non-positive target rate -/

/-- C5: for every opened source, a request with `r ≤ 0` fails with the
invalid-rate result; the trace is empty, so no directory is created and no
file is written. -/
theorem c5_invalid_rate (cfg : VideoProcessConfig) (src : VideoSource)
    (hop : src.opened = true) (hle : cfg.fps ≤ 0) :
    runResult cfg src = (false, Msg.invalidRate) ∧
    runTrace cfg src = [] ∧
    writesOf (runTrace cfg src) = [] ∧
    ∀ d, Ev.mkdirp d ∉ runTrace cfg src := by
  have ht : runTrace cfg src = [] := by
    rw [runTrace, process, if_neg (by simp [hop]), if_pos hle]
  refine ⟨?_, ht, by rw [ht]; rfl, by rw [ht]; simp⟩
  rw [runResult, process, if_neg (by simp [hop]), if_pos hle]

/-- C5 witness at `r = 0`. -/
theorem c5_witness :
    runResult ⟨"v.mp4", none, 0, "jpg"⟩ ⟨true, 10, 30, [1, 2]⟩
      = (false, Msg.invalidRate) ∧
    runTrace ⟨"v.mp4", none, 0, "jpg"⟩ ⟨true, 10, 30, [1, 2]⟩ = [] ∧
    writesOf (runTrace ⟨"v.mp4", none, 0, "jpg"⟩ ⟨true, 10, 30, [1, 2]⟩) = [] ∧
    ∀ d, Ev.mkdirp d ∉ runTrace ⟨"v.mp4", none, 0, "jpg"⟩ ⟨true, 10, 30, [1, 2]⟩ :=
  c5_invalid_rate ⟨"v.mp4", none, 0, "jpg"⟩ ⟨true, 10, 30, [1, 2]⟩ rfl (by norm_num)

/-! ### Claim C9: zero native rate -/

/-- C9: an opened source reporting native rate `0` fails the `r > R` check
for every positive target rate, so it is never processed successfully. -/
theorem c9_zero_native_rate (cfg : VideoProcessConfig) (src : VideoSource)
    (hop : src.opened = true) (hz : src.video_fps = 0) (hpos : 0 < cfg.fps) :
    runResult cfg src = (false, Msg.rateExceeds 0) ∧
    (runResult cfg src).1 = false := by
  have hgt : src.video_fps < cfg.fps := by rw [hz]; exact hpos
  have h1 : runResult cfg src = (false, Msg.rateExceeds 0) := by
    rw [runResult, process, if_neg (by simp [hop]), if_neg (not_le.mpr hpos),
      if_pos hgt, hz]
  exact ⟨h1, by rw [h1]⟩

/-- C9 witness. -/
theorem c9_witness :
    runResult ⟨"v.mp4", none, 5, "jpg"⟩ ⟨true, 40, 0, [1]⟩
      = (false, Msg.rateExceeds 0) ∧
    (runResult ⟨"v.mp4", none, 5, "jpg"⟩ ⟨true, 40, 0, [1]⟩).1 = false :=
  c9_zero_native_rate ⟨"v.mp4", none, 5, "jpg"⟩ ⟨true, 40, 0, [1]⟩ rfl rfl
    (by norm_num)

/-! ### Claim C2: the handle is NOT released on every exit path -/

def c2cfg : VideoProcessConfig := ⟨"video.mp4", none, 0, "jpg"⟩

def c2src : VideoSource := ⟨true, 100, 30, [5, 6]⟩

def c2cfgB : VideoProcessConfig := ⟨"video.mp4", none, 2, "jpg"⟩

def c2srcB : VideoSource := ⟨true, 0, 4, [5]⟩

/-- C2 is violated by the code: `cap.release()` sits after the read loop on
the success path only; the validation-failure returns and the
`except Exception` handler return without releasing.  Evaluated here at two
failing inputs: an opened source with an invalid rate (`r = 0`), and an
opened source whose mid-stream `ZeroDivisionError` aborts the run — in
both, the trace of the run contains no release event. -/
theorem c2_no_release_on_failure :
    (c2src.opened = true ∧ runResult c2cfg c2src = (false, Msg.invalidRate) ∧
      Ev.release ∉ runTrace c2cfg c2src) ∧
    (c2srcB.opened = true ∧ runResult c2cfgB c2srcB = (false, Msg.zeroDivErr) ∧
      Ev.release ∉ runTrace c2cfgB c2srcB) := by
  have hop : c2srcB.opened = true := rfl
  have h0 : (0 : ℚ) < c2cfgB.fps := by norm_num [c2cfgB]
  have hle : c2cfgB.fps ≤ c2srcB.video_fps := by norm_num [c2cfgB, c2srcB]
  have hex : (readLoop (frameInterval c2cfgB c2srcB) c2srcB.total_frames
      (get_output_directory c2cfgB) c2cfgB.frame_format c2srcB.frames 0 0).2
        = .zeroDiv := by
    exact readLoop_zeroDiv _ _ _ _ _ _ _
  have hp := process_valid_zeroDiv c2cfgB c2srcB hop h0 hle hex
  refine ⟨⟨rfl, by decide, by decide⟩, hop, ?_, ?_⟩
  · rw [runResult, hp]
  · rw [runTrace, hp]
    simp [readLoop, Nat.zero_mod, c2srcB]

/-! ### Claim C3: division by zero when the source reports zero frames -/

def c3cfg : VideoProcessConfig := ⟨"clip.mp4", none, 1, "png"⟩

def c3src : VideoSource := ⟨true, 0, 1, [9]⟩

/-- C3 counterexample: on an opened, rate-valid source that reports
`total_frames = 0` but yields one frame, the run *does* evaluate
`current_frame / total_frames` with `total_frames == 0` on the first frame
read — the loop exits by `ZeroDivisionError` and the run returns the
generic exception failure instead of avoiding the division. -/
theorem c3_counterexample :
    (readLoop (frameInterval c3cfg c3src) c3src.total_frames
      (get_output_directory c3cfg) c3cfg.frame_format c3src.frames 0 0).2
        = LoopExit.zeroDiv ∧
    runResult c3cfg c3src = (false, Msg.zeroDivErr) := by
  have hex : (readLoop (frameInterval c3cfg c3src) c3src.total_frames
      (get_output_directory c3cfg) c3cfg.frame_format c3src.frames 0 0).2
        = LoopExit.zeroDiv := readLoop_zeroDiv _ _ _ _ _ _ _
  have hp := process_valid_zeroDiv c3cfg c3src rfl (by norm_num [c3cfg])
    (by norm_num [c3cfg, c3src]) hex
  exact ⟨hex, by rw [runResult, hp]⟩

/-- C3 (amended): when the source reports `T = 0`, the run avoids the
division only when no frame is read (then it succeeds having written
nothing and emits no progress value); as soon as one frame is read, the
division `framesReadSoFar / 0` is evaluated, the raised
`ZeroDivisionError` is caught by the run's exception handler, and the run
returns a failure result. -/
theorem c3_zero_total_frames (cfg : VideoProcessConfig) (src : VideoSource)
    (hop : src.opened = true) (h0 : 0 < cfg.fps)
    (hle : cfg.fps ≤ src.video_fps) (hT : src.total_frames = 0) :
    (src.frames = [] → runResult cfg src = (true, Msg.finished 0) ∧
      progressOf (runTrace cfg src) = []) ∧
    (src.frames ≠ [] → runResult cfg src = (false, Msg.zeroDivErr)) := by
  constructor
  · intro hnil
    have hex : (readLoop (frameInterval cfg src) src.total_frames
        (get_output_directory cfg) cfg.frame_format src.frames 0 0).2
          = .ok 0 := by rw [hnil]; rfl
    have hp := process_valid_ok cfg src hop h0 hle 0 hex
    refine ⟨by rw [runResult, hp], ?_⟩
    rw [runTrace, hp, hnil]
    simp [readLoop]
  · intro hne
    obtain ⟨fr, rest, hfr⟩ := List.exists_cons_of_ne_nil hne
    have hex : (readLoop (frameInterval cfg src) src.total_frames
        (get_output_directory cfg) cfg.frame_format src.frames 0 0).2
          = .zeroDiv := by
      rw [hT, hfr]; exact readLoop_zeroDiv _ _ _ _ _ _ _
    rw [runResult, process_valid_zeroDiv cfg src hop h0 hle hex]

/-- C3 amended-claim witness. -/
theorem c3_witness :
    (([] : List ℕ) = [] → runResult ⟨"c.mp4", none, 2, "jpg"⟩ ⟨true, 0, 3, []⟩
        = (true, Msg.finished 0) ∧
      progressOf (runTrace ⟨"c.mp4", none, 2, "jpg"⟩ ⟨true, 0, 3, []⟩) = []) ∧
    (([] : List ℕ) ≠ [] → runResult ⟨"c.mp4", none, 2, "jpg"⟩ ⟨true, 0, 3, []⟩
        = (false, Msg.zeroDivErr)) :=
  c3_zero_total_frames ⟨"c.mp4", none, 2, "jpg"⟩ ⟨true, 0, 3, []⟩ rfl
    (by norm_num) (by norm_num) rfl

/-! ### Claim C1: interval arithmetic and frame selection -/

theorem enumFrom_filter_length (p : ℕ → Bool) (l : List ℕ) :
    ((List.enumFrom 0 l).filter (fun q => p q.1)).length
      = ((List.range l.length).filter p).length := by
  have h := congrArg List.length (enumFrom_filter_map_fst p l 0)
  simpa [List.range_eq_range'] using h

/-- C1: on every valid request (`0 < r ≤ R`, opened source, `T` frames),
the computed interval is `max(1, ⌊R / r⌋)`; the frames written are exactly
those whose 0-based ordinal `o` satisfies `o % interval == 0`, in source
order; and the set of selected ordinals is exactly the multiples of the
interval intersected with `[0, T)`. -/
theorem c1_interval_and_selection (cfg : VideoProcessConfig) (src : VideoSource)
    (hop : src.opened = true) (h0 : 0 < cfg.fps) (hle : cfg.fps ≤ src.video_fps)
    (hacc : src.total_frames = (src.frames.length : ℤ)) :
    (frameInterval cfg src : ℤ) = max 1 ⌊src.video_fps / cfg.fps⌋ ∧
    (writesOf (runTrace cfg src)).map (fun w => w.2.2)
      = ((List.enumFrom 0 src.frames).filter
          (fun q => q.1 % frameInterval cfg src == 0)).map Prod.snd ∧
    ((List.enumFrom 0 src.frames).filter
        (fun q => q.1 % frameInterval cfg src == 0)).map Prod.fst
      = selectedOrdinals (frameInterval cfg src) src.frames.length ∧
    (∀ o : ℕ, o ∈ selectedOrdinals (frameInterval cfg src) src.frames.length ↔
      (o < src.frames.length ∧ ∃ k, o = frameInterval cfg src * k)) := by
  refine ⟨frameInterval_eq_floor cfg src h0 hle, ?_, ?_, ?_⟩
  · by_cases hnil : src.frames = []
    · have hex : (readLoop (frameInterval cfg src) src.total_frames
          (get_output_directory cfg) cfg.frame_format src.frames 0 0).2
            = .ok 0 := by rw [hnil]; rfl
      have hp := process_valid_ok cfg src hop h0 hle 0 hex
      rw [runTrace, hp, hnil]
      simp [readLoop]
    · have hlen : src.frames.length ≠ 0 := fun h => hnil (List.length_eq_zero.mp h)
      have hT : src.total_frames ≠ 0 := by
        rw [hacc]; exact_mod_cast hlen
      have hex := exit_readLoop (frameInterval cfg src) src.total_frames
        (get_output_directory cfg) cfg.frame_format hT src.frames 0 0
      have hp := process_valid_ok cfg src hop h0 hle _ hex
      rw [runTrace, hp]
      simp only [writesOf_cons_mkdirp, writesOf_append, writesOf_cons_release,
        writesOf_nil, List.append_nil]
      rw [writesOf_readLoop _ _ _ _ hT, numberedWrites_data]
  · rw [enumFrom_filter_map_fst (fun o => o % frameInterval cfg src == 0)
      src.frames 0, selectedOrdinals, List.range_eq_range']
  · intro o
    simp only [selectedOrdinals, List.mem_filter, List.mem_range, beq_iff_eq]
    refine and_congr_right fun _ => ?_
    rw [← Nat.dvd_iff_mod_eq_zero, dvd_def]

/-- C1 witness: the spec's scenario `R = 30`, `r = 10`, `T = 4`. -/
theorem c1_witness :
    (frameInterval ⟨"v.mp4", none, 10, "jpg"⟩ ⟨true, 4, 30, [8, 9, 10, 11]⟩ : ℤ)
        = max 1 ⌊(30 : ℚ) / 10⌋ ∧
    (writesOf (runTrace ⟨"v.mp4", none, 10, "jpg"⟩ ⟨true, 4, 30, [8, 9, 10, 11]⟩)).map
        (fun w => w.2.2)
      = ((List.enumFrom 0 [8, 9, 10, 11]).filter
          (fun q => q.1 % frameInterval ⟨"v.mp4", none, 10, "jpg"⟩
            ⟨true, 4, 30, [8, 9, 10, 11]⟩ == 0)).map Prod.snd ∧
    ((List.enumFrom 0 [8, 9, 10, 11]).filter
        (fun q => q.1 % frameInterval ⟨"v.mp4", none, 10, "jpg"⟩
          ⟨true, 4, 30, [8, 9, 10, 11]⟩ == 0)).map Prod.fst
      = selectedOrdinals
          (frameInterval ⟨"v.mp4", none, 10, "jpg"⟩ ⟨true, 4, 30, [8, 9, 10, 11]⟩) 4 ∧
    (∀ o : ℕ, o ∈ selectedOrdinals
        (frameInterval ⟨"v.mp4", none, 10, "jpg"⟩ ⟨true, 4, 30, [8, 9, 10, 11]⟩) 4 ↔
      (o < 4 ∧ ∃ k, o = frameInterval ⟨"v.mp4", none, 10, "jpg"⟩
        ⟨true, 4, 30, [8, 9, 10, 11]⟩ * k)) :=
  c1_interval_and_selection ⟨"v.mp4", none, 10, "jpg"⟩ ⟨true, 4, 30, [8, 9, 10, 11]⟩
    rfl (by norm_num) (by norm_num) (by norm_num)

/-! ### Claim C6: progress reporting -/

/-- C6: on an opened, rate-valid source whose reported total `T` is accurate
(`T` equals the number of frames actually read) and positive, the progress
callback fires exactly once per frame read with `framesReadSoFar / T`; the
emitted sequence is monotonically non-decreasing, lies in `[0, 1]`, and its
final value is `1`. -/
theorem c6_progress (cfg : VideoProcessConfig) (src : VideoSource)
    (hop : src.opened = true) (h0 : 0 < cfg.fps) (hle : cfg.fps ≤ src.video_fps)
    (hacc : src.total_frames = (src.frames.length : ℤ)) (hne : src.frames ≠ []) :
    progressOf (runTrace cfg src)
      = (List.range src.frames.length).map
          (fun j => (((j + 1 : ℕ) : ℚ)) / ((src.total_frames : ℤ) : ℚ)) ∧
    (progressOf (runTrace cfg src)).length = src.frames.length ∧
    List.Pairwise (fun a b => a ≤ b) (progressOf (runTrace cfg src)) ∧
    (∀ q ∈ progressOf (runTrace cfg src), 0 ≤ q ∧ q ≤ 1) ∧
    (progressOf (runTrace cfg src)).getLast? = some 1 := by
  have hlen : src.frames.length ≠ 0 := fun h => hne (List.length_eq_zero.mp h)
  have hT : src.total_frames ≠ 0 := by rw [hacc]; exact_mod_cast hlen
  have hTpos : (0 : ℚ) < ((src.total_frames : ℤ) : ℚ) := by
    rw [hacc]; exact_mod_cast Nat.pos_of_ne_zero hlen
  have hex := exit_readLoop (frameInterval cfg src) src.total_frames
    (get_output_directory cfg) cfg.frame_format hT src.frames 0 0
  have hp := process_valid_ok cfg src hop h0 hle _ hex
  have h_eq : progressOf (runTrace cfg src)
      = (List.range src.frames.length).map
          (fun j => (((j + 1 : ℕ) : ℚ)) / ((src.total_frames : ℤ) : ℚ)) := by
    rw [runTrace, hp]
    simp only [progressOf_cons_mkdirp, progressOf_append, progressOf_cons_release,
      progressOf_nil, List.append_nil]
    rw [progressOf_readLoop _ _ _ _ hT]
    exact List.map_congr_left fun j hj => by norm_num
  refine ⟨h_eq, ?_, ?_, ?_, ?_⟩
  · rw [h_eq]; simp
  · rw [h_eq]
    exact List.Pairwise.map _
      (fun a b hab => by
        have : ((a + 1 : ℕ) : ℚ) ≤ ((b + 1 : ℕ) : ℚ) := by exact_mod_cast by omega
        gcongr)
      (List.pairwise_lt_range _)
  · intro q hq
    rw [h_eq] at hq
    obtain ⟨j, hj, rfl⟩ := List.mem_map.mp hq
    have hjlt : j < src.frames.length := List.mem_range.mp hj
    refine ⟨div_nonneg (by positivity) hTpos.le, (div_le_one hTpos).mpr ?_⟩
    rw [hacc]
    exact_mod_cast by omega
  · obtain ⟨m, hm⟩ : ∃ m, src.frames.length = m + 1 :=
      ⟨src.frames.length - 1, by omega⟩
    rw [h_eq, hm, List.range_succ, List.map_append, List.map_cons, List.map_nil,
      List.getLast?_concat]
    have : (((m + 1 : ℕ) : ℚ)) / ((src.total_frames : ℤ) : ℚ) = 1 := by
      rw [hacc, hm]
      push_cast
      exact div_self (by positivity)
    rw [this]

/-- C6 witness. -/
theorem c6_witness :
    progressOf (runTrace ⟨"v.mp4", none, 3, "jpg"⟩ ⟨true, 2, 6, [4, 5]⟩)
      = (List.range 2).map
          (fun j => (((j + 1 : ℕ) : ℚ)) / (((2 : ℤ) : ℤ) : ℚ)) ∧
    (progressOf (runTrace ⟨"v.mp4", none, 3, "jpg"⟩ ⟨true, 2, 6, [4, 5]⟩)).length = 2 ∧
    List.Pairwise (fun a b => a ≤ b)
      (progressOf (runTrace ⟨"v.mp4", none, 3, "jpg"⟩ ⟨true, 2, 6, [4, 5]⟩)) ∧
    (∀ q ∈ progressOf (runTrace ⟨"v.mp4", none, 3, "jpg"⟩ ⟨true, 2, 6, [4, 5]⟩),
      0 ≤ q ∧ q ≤ 1) ∧
    (progressOf (runTrace ⟨"v.mp4", none, 3, "jpg"⟩ ⟨true, 2, 6, [4, 5]⟩)).getLast?
      = some 1 :=
  c6_progress ⟨"v.mp4", none, 3, "jpg"⟩ ⟨true, 2, 6, [4, 5]⟩ rfl (by norm_num)
    (by norm_num) (by decide) (List.cons_ne_nil 4 [5])

/-! ### Claim C8: output filenames -/

/-- C8: the file paths written during a valid run are
`frame_{k:04d}.{format}`, contiguous in `k` from `0` with no gaps, in write
order (even when the selected ordinals are non-contiguous); the 4-digit
zero-padding is a minimum width only — a numeral of five or more digits is
emitted unchanged, with no truncation, and the padded numeral's length is
`max 4 (digit count)` in general. -/
theorem c8_filenames (cfg : VideoProcessConfig) (src : VideoSource)
    (hop : src.opened = true) (h0 : 0 < cfg.fps) (hle : cfg.fps ≤ src.video_fps)
    (hT : src.total_frames ≠ 0) :
    (writesOf (runTrace cfg src)).map Prod.fst
      = (List.range (writesOf (runTrace cfg src)).length).map
          (fun k => framePath (get_output_directory cfg) k cfg.frame_format) ∧
    (∀ k : ℕ, 5 ≤ (toString k).length → pad4 k = toString k) ∧
    (∀ k : ℕ, (pad4 k).length = max 4 (toString k).length) := by
  have hex := exit_readLoop (frameInterval cfg src) src.total_frames
    (get_output_directory cfg) cfg.frame_format hT src.frames 0 0
  have hp := process_valid_ok cfg src hop h0 hle _ hex
  have hw : writesOf (runTrace cfg src)
      = numberedWrites (get_output_directory cfg) cfg.frame_format 0
          ((List.enumFrom 0 src.frames).filter
            (fun q => q.1 % frameInterval cfg src == 0)) := by
    rw [runTrace, hp]
    simp only [writesOf_cons_mkdirp, writesOf_append, writesOf_cons_release,
      writesOf_nil, List.append_nil]
    rw [writesOf_readLoop _ _ _ _ hT]
  refine ⟨?_, ?_, ?_⟩
  · rw [hw, numberedWrites_paths, numberedWrites_length, List.range_eq_range']
  · intro k hk
    rw [pad4, show 4 - (toString k).length = 0 by omega]
    rfl
  · intro k
    rw [pad4, String.length_append]
    have : (String.mk (List.replicate (4 - (toString k).length) '0')).length
        = 4 - (toString k).length :=
      List.length_replicate _ _
    rw [this]
    omega

/-- C8 witness. -/
theorem c8_witness :
    (writesOf (runTrace ⟨"v.mp4", none, 4, "png"⟩ ⟨true, 5, 12, [3, 1, 4, 1, 5]⟩)).map
        Prod.fst
      = (List.range (writesOf (runTrace ⟨"v.mp4", none, 4, "png"⟩
            ⟨true, 5, 12, [3, 1, 4, 1, 5]⟩)).length).map
          (fun k => framePath (get_output_directory ⟨"v.mp4", none, 4, "png"⟩) k "png") ∧
    (∀ k : ℕ, 5 ≤ (toString k).length → pad4 k = toString k) ∧
    (∀ k : ℕ, (pad4 k).length = max 4 (toString k).length) :=
  c8_filenames ⟨"v.mp4", none, 4, "png"⟩ ⟨true, 5, 12, [3, 1, 4, 1, 5]⟩ rfl
    (by norm_num) (by norm_num) (by norm_num)

/-! ### Claim C10: the write counter invariant -/

/-- C10: at every point of the read loop — i.e. after any prefix of `n`
frame reads — the write counter equals the number of ordinals in `[0, n)`
divisible by the interval, which is `⌈n / interval⌉ = (n + interval - 1) /
interval`; and the count reported in the success message equals the number
of frame-write events of the run. -/
theorem c10_write_counter (cfg : VideoProcessConfig) (src : VideoSource)
    (hop : src.opened = true) (h0 : 0 < cfg.fps) (hle : cfg.fps ≤ src.video_fps)
    (hT : src.total_frames ≠ 0) :
    (∀ n : ℕ,
      (readLoop (frameInterval cfg src) src.total_frames (get_output_directory cfg)
          cfg.frame_format (src.frames.take n) 0 0).2
        = .ok (((List.range (src.frames.take n).length).filter
            (fun o => o % frameInterval cfg src == 0)).length)) ∧
    (∀ m : ℕ,
      ((List.range m).filter (fun o => o % frameInterval cfg src == 0)).length
        = (m + frameInterval cfg src - 1) / frameInterval cfg src) ∧
    runResult cfg src
      = (true, Msg.finished ((writesOf (runTrace cfg src)).length)) := by
  have hcount : ∀ l : List ℕ,
      ((List.enumFrom 0 l).filter
          (fun q => q.1 % frameInterval cfg src == 0)).length
        = ((List.range l.length).filter
            (fun o => o % frameInterval cfg src == 0)).length :=
    fun l => enumFrom_filter_length (fun o => o % frameInterval cfg src == 0) l
  refine ⟨?_, ?_, ?_⟩
  · intro n
    rw [exit_readLoop _ _ _ _ hT, hcount, Nat.zero_add]
  · intro m
    exact count_multiples _ (one_le_frameInterval cfg src) m
  · have hex := exit_readLoop (frameInterval cfg src) src.total_frames
      (get_output_directory cfg) cfg.frame_format hT src.frames 0 0
    have hp := process_valid_ok cfg src hop h0 hle _ hex
    have hw : (writesOf (runTrace cfg src)).length
        = ((List.enumFrom 0 src.frames).filter
            (fun q => q.1 % frameInterval cfg src == 0)).length := by
      rw [runTrace, hp]
      simp only [writesOf_cons_mkdirp, writesOf_append, writesOf_cons_release,
        writesOf_nil, List.append_nil]
      rw [writesOf_readLoop _ _ _ _ hT, numberedWrites_length]
    rw [runResult, hp, hw]
    simp

/-- C10 witness. -/
theorem c10_witness :
    (∀ n : ℕ,
      (readLoop (frameInterval ⟨"v.mp4", none, 2, "jpg"⟩ ⟨true, 3, 4, [7, 8, 9]⟩)
          (3 : ℤ) (get_output_directory ⟨"v.mp4", none, 2, "jpg"⟩) "jpg"
          (([7, 8, 9] : List ℕ).take n) 0 0).2
        = .ok (((List.range (([7, 8, 9] : List ℕ).take n).length).filter
            (fun o => o % frameInterval ⟨"v.mp4", none, 2, "jpg"⟩
              ⟨true, 3, 4, [7, 8, 9]⟩ == 0)).length)) ∧
    (∀ m : ℕ,
      ((List.range m).filter (fun o => o % frameInterval ⟨"v.mp4", none, 2, "jpg"⟩
          ⟨true, 3, 4, [7, 8, 9]⟩ == 0)).length
        = (m + frameInterval ⟨"v.mp4", none, 2, "jpg"⟩ ⟨true, 3, 4, [7, 8, 9]⟩ - 1)
            / frameInterval ⟨"v.mp4", none, 2, "jpg"⟩ ⟨true, 3, 4, [7, 8, 9]⟩) ∧
    runResult ⟨"v.mp4", none, 2, "jpg"⟩ ⟨true, 3, 4, [7, 8, 9]⟩
      = (true, Msg.finished
          ((writesOf (runTrace ⟨"v.mp4", none, 2, "jpg"⟩ ⟨true, 3, 4, [7, 8, 9]⟩)).length)) :=
  c10_write_counter ⟨"v.mp4", none, 2, "jpg"⟩ ⟨true, 3, 4, [7, 8, 9]⟩ rfl
    (by norm_num) (by norm_num) (by norm_num)

/-! ### Claim C7: the resolved output directory -/

theorem dropWhile_eq_cons {α : Type} {p : α → Bool} {l : List α} {x : α}
    {xs : List α} (h : l.dropWhile p = x :: xs) :
    p x = false ∧ l = l.takeWhile p ++ x :: xs := by
  induction l with
  | nil => simp at h
  | cons a t ih =>
    by_cases hpa : p a
    · rw [List.dropWhile_cons, if_pos hpa] at h
      obtain ⟨h1, h2⟩ := ih h
      rw [List.takeWhile_cons, if_pos hpa]
      exact ⟨h1, by rw [List.cons_append, ← h2]⟩
    · rw [List.dropWhile_cons, if_neg hpa] at h
      obtain ⟨rfl, rfl⟩ : a = x ∧ t = xs := by
        injection h with h1 h2; exact ⟨h1, h2⟩
      rw [List.takeWhile_cons, if_neg hpa]
      exact ⟨Bool.of_not_eq_true hpa, rfl⟩

theorem splitLastChar_some {c : Char} {l pre post : List Char}
    (h : splitLastChar c l = some (pre, post)) :
    l = pre ++ c :: post ∧ ∀ a ∈ post, a ≠ c := by
  rw [splitLastChar] at h
  cases hd : l.reverse.dropWhile (fun a => a != c) with
  | nil => rw [hd] at h; simp at h
  | cons x pre' =>
    rw [hd] at h
    obtain ⟨h1, h2⟩ : pre'.reverse = pre ∧
        (l.reverse.takeWhile (fun a => a != c)).reverse = post := by
      injection h with h3; injection h3 with h4 h5; exact ⟨h4, h5⟩
    obtain ⟨hx, hl⟩ := dropWhile_eq_cons hd
    have hxc : x = c := bne_eq_false_iff_eq.mp hx
    constructor
    · have : l = (l.reverse).reverse := (List.reverse_reverse l).symm
      rw [this, hl, hxc, List.reverse_append, List.reverse_cons, ← h1, ← h2]
      simp
    · intro a ha
      rw [← h2, List.mem_reverse] at ha
      have := List.mem_takeWhile_imp ha
      exact bne_iff_ne.mp this

theorem splitLastChar_none {c : Char} {l : List Char}
    (h : splitLastChar c l = none) : ∀ a ∈ l, a ≠ c := by
  rw [splitLastChar] at h
  cases hd : l.reverse.dropWhile (fun a => a != c) with
  | cons x pre' => rw [hd] at h; simp at h
  | nil =>
    intro a ha
    have := List.dropWhile_eq_nil_iff.mp hd a (List.mem_reverse.mpr ha)
    exact bne_iff_ne.mp this

theorem splitLastChar_none_of_not_mem {c : Char} {l : List Char}
    (h : ∀ a ∈ l, a ≠ c) : splitLastChar c l = none := by
  rw [splitLastChar]
  have hd : l.reverse.dropWhile (fun a => a != c) = [] :=
    List.dropWhile_eq_nil_iff.mpr fun x hx =>
      bne_iff_ne.mpr (h x (List.mem_reverse.mp hx))
  rw [hd]

theorem headPart_append_basename (l : List Char) :
    headPartL l ++ basenameL l = l := by
  rw [headPartL, basenameL]
  cases h : splitLastChar '/' l with
  | none => simp
  | some p =>
    obtain ⟨pre, post⟩ := p
    have h1 := (splitLastChar_some h).1
    simp [h1]

theorem basenameL_no_slash (l : List Char) : ∀ a ∈ basenameL l, a ≠ '/' := by
  rw [basenameL]
  cases h : splitLastChar '/' l with
  | none => exact splitLastChar_none h
  | some p =>
    obtain ⟨pre, post⟩ := p
    exact (splitLastChar_some h).2

theorem basenameL_of_no_slash {l : List Char} (h : ∀ a ∈ l, a ≠ '/') :
    basenameL l = l := by
  rw [basenameL, splitLastChar_none_of_not_mem h]

theorem headPartL_of_no_slash {l : List Char} (h : ∀ a ∈ l, a ≠ '/') :
    headPartL l = [] := by
  rw [headPartL, splitLastChar_none_of_not_mem h]

theorem basenameL_idem (l : List Char) :
    basenameL (basenameL l) = basenameL l :=
  basenameL_of_no_slash (basenameL_no_slash l)

theorem stemL_mem (l : List Char) : ∀ a ∈ stemL l, a ∈ basenameL l := by
  rw [stemL, splitextL, basenameL_idem]
  cases h : splitLastChar '.' (basenameL l) with
  | none => intro a ha; exact ha
  | some p =>
    obtain ⟨pre, post⟩ := p
    dsimp only
    by_cases hany : pre.any (fun a => a != '.')
    · rw [if_pos hany]
      intro a ha
      rw [headPartL_of_no_slash (basenameL_no_slash l), List.nil_append] at ha
      rw [(splitLastChar_some h).1]
      exact List.mem_append.mpr (Or.inl ha)
    · rw [if_neg hany]
      intro a ha; exact ha

theorem stemL_no_slash (l : List Char) : ∀ a ∈ stemL l, a ≠ '/' :=
  fun a ha => basenameL_no_slash l a (stemL_mem l a ha)

/-- `splitext(p)[0]` is the head part of `p` followed by the
extension-stripped basename. -/
theorem splitextL_decomp (l : List Char) :
    (splitextL l).1 = headPartL l ++ stemL l := by
  rw [splitextL, stemL, splitextL, basenameL_idem]
  cases h : splitLastChar '.' (basenameL l) with
  | none => exact (headPart_append_basename l).symm
  | some p =>
    obtain ⟨pre, post⟩ := p
    dsimp only
    by_cases hany : pre.any (fun a => a != '.')
    · rw [if_pos hany, if_pos hany,
        headPartL_of_no_slash (basenameL_no_slash l), List.nil_append]
    · rw [if_neg hany, if_neg hany]
      exact (headPart_append_basename l).symm

theorem stripTrailSlash_concat {pre : List Char} (hne : pre ≠ [])
    (hlast : pre.getLast? ≠ some '/') :
    stripTrailSlash (pre ++ ['/']) = pre := by
  rw [stripTrailSlash, List.reverse_append]
  have h1 : (['/'] : List Char).reverse = ['/'] := rfl
  rw [h1]
  cases hrev : pre.reverse with
  | nil => exact absurd (by simpa using congrArg List.reverse hrev) hne
  | cons a t =>
    have ha : a ≠ '/' := by
      have : pre.reverse.head? = some a := by rw [hrev]; rfl
      rw [List.head?_reverse] at this
      intro hc; rw [hc] at this; exact hlast this
    show (List.dropWhile (fun x => x == '/') ('/' :: a :: t)).reverse = pre
    rw [List.dropWhile_cons, if_pos (by simp), List.dropWhile_cons,
      if_neg (by simp [ha]), ← hrev, List.reverse_reverse]

theorem frSuffix_head :
    ∀ s : List Char, (∀ a ∈ s, a ≠ '/') →
      (s ++ "_frames".toList).head? ≠ some '/' := by
  intro s hs
  cases s with
  | nil => decide
  | cons a t =>
    simp only [List.cons_append, List.head?_cons]
    intro hc
    exact hs a (List.mem_cons_self a t) (by injection hc)

/-- The core path fact behind the C7 amendment: on a `goodHeadL` path, the
code's default output directory `splitext(p)[0] ++ "_frames"` is the spec's
`join(dirname(p), stem ++ "_frames")`. -/
theorem pjoin_dirname_stem (l : List Char) (hg : goodHeadL l = true) :
    pjoinL (dirnameL l) (stemL l ++ "_frames".toList)
      = (splitextL l).1 ++ "_frames".toList := by
  have hhead := frSuffix_head (stemL l) (stemL_no_slash l)
  rw [splitextL_decomp]
  cases h : splitLastChar '/' l with
  | none =>
    have h1 : headPartL l = [] := by rw [headPartL, h]
    have h2 : dirnameL l = [] := by
      rw [dirnameL, h1]
      rfl
    rw [h1, h2, pjoinL, if_neg hhead, if_pos (Or.inl rfl)]
    simp
  | some p =>
    obtain ⟨pre, post⟩ := p
    have h1 : headPartL l = pre ++ ['/'] := by rw [headPartL, h]
    by_cases hall : pre.all (fun a => a == '/')
    · have h2 : dirnameL l = pre ++ ['/'] := by
        rw [dirnameL, h1, if_pos (by simp [List.all_append, hall])]
      rw [h1, h2, pjoinL, if_neg hhead,
        if_pos (Or.inr (List.getLast?_concat pre))]
      simp [List.append_assoc]
    · have hpre_ne : pre ≠ [] := by
        intro hc; rw [hc] at hall; exact hall rfl
      have hlast : pre.getLast? ≠ some '/' := by
        rw [goodHeadL, h] at hg
        rw [Bool.or_eq_true] at hg
        rcases hg with hg | hg
        · exact absurd hg hall
        · rw [List.getLastD_eq_getLast?] at hg
          rw [List.getLast?_eq_getLast pre hpre_ne] at hg ⊢
          intro hc
          rw [Option.getD_some] at hg
          have : pre.getLast hpre_ne = '/' := by injection hc
          simp [this] at hg
      have h2 : dirnameL l = pre := by
        rw [dirnameL, h1,
          if_neg (by
            simp only [List.all_append, Bool.and_eq_true]
            intro hc
            exact hall hc.1),
          stripTrailSlash_concat hpre_ne hlast]
      rw [h1, h2, pjoinL, if_neg hhead,
        if_neg (by
          rintro (hc | hc)
          · exact hpre_ne hc
          · exact hlast hc)]
      simp

def c7cfg : VideoProcessConfig := ⟨"a//b.mp4", none, 1, "jpg"⟩

/-- C7 counterexample: for the source path `"a//b.mp4"` with no output
directory given, the code resolves `splitext("a//b.mp4")[0] + "_frames" =
"a//b_frames"`, while the spec's `join(dirname(p), basename-stem +
"_frames")` gives `"a/b_frames"` (Python's `dirname` strips the repeated
separator; string concatenation keeps it). -/
theorem c7_counterexample :
    get_output_directory c7cfg = "a//b_frames" ∧
    specOutputDirectory c7cfg = "a/b_frames" ∧
    get_output_directory c7cfg ≠ specOutputDirectory c7cfg := by
  refine ⟨by decide, by decide, by decide⟩

/-- C7 (amended): the resolved output directory is
`join(outputDir, stem + "_frames")` when an output directory is given, and
`splitext(sourcePath)[0] + "_frames"` otherwise — which coincides with the
claimed `join(dirname(sourcePath), stem + "_frames")` whenever the source
path does not carry a repeated `'/'` immediately before its final
component; the directory is the subject of the first event of every
validated run, before any frame write; and its creation
(`makedirs(..., exist_ok=True)`) is idempotent. -/
theorem c7_output_directory (cfg : VideoProcessConfig) (src : VideoSource)
    (hg : goodHead cfg.video_path = true) :
    get_output_directory cfg = specOutputDirectory cfg ∧
    (src.opened = true → 0 < cfg.fps → cfg.fps ≤ src.video_fps →
      ∃ rest, runTrace cfg src = Ev.mkdirp (get_output_directory cfg) :: rest) ∧
    (∀ fs, makedirs (makedirs fs (get_output_directory cfg)) (get_output_directory cfg)
      = makedirs fs (get_output_directory cfg)) := by
  refine ⟨?_, ?_, ?_⟩
  · rw [get_output_directory, specOutputDirectory]
    by_cases ht : truthy cfg.output_path
    · rw [if_pos ht, if_pos ht]
    · rw [if_neg ht, if_neg ht]
      show String.mk (splitextL cfg.video_path.toList).1 ++ "_frames"
        = String.mk (pjoinL (dirnameL cfg.video_path.toList)
            (stemL cfg.video_path.toList ++ "_frames".toList))
      rw [pjoin_dirname_stem cfg.video_path.toList hg]
      rfl
  · intro hop h0 hle
    cases hexit : (readLoop (frameInterval cfg src) src.total_frames
        (get_output_directory cfg) cfg.frame_format src.frames 0 0).2 with
    | ok n =>
      exact ⟨_, by rw [runTrace, process_valid_ok cfg src hop h0 hle n hexit]⟩
    | zeroDiv =>
      exact ⟨_, by rw [runTrace, process_valid_zeroDiv cfg src hop h0 hle hexit]⟩
  · intro fs
    by_cases hmem : get_output_directory cfg ∈ fs
    · simp [makedirs, hmem]
    · simp [makedirs, hmem]

/-- C7 amended-claim witness. -/
theorem c7_witness :
    get_output_directory ⟨"a/b.mp4", none, 1, "jpg"⟩
      = specOutputDirectory ⟨"a/b.mp4", none, 1, "jpg"⟩ ∧
    ((⟨true, 2, 3, [1, 2]⟩ : VideoSource).opened = true → 0 < (1 : ℚ) →
      (1 : ℚ) ≤ (3 : ℚ) →
      ∃ rest, runTrace ⟨"a/b.mp4", none, 1, "jpg"⟩ ⟨true, 2, 3, [1, 2]⟩
        = Ev.mkdirp (get_output_directory ⟨"a/b.mp4", none, 1, "jpg"⟩) :: rest) ∧
    (∀ fs, makedirs (makedirs fs (get_output_directory ⟨"a/b.mp4", none, 1, "jpg"⟩))
        (get_output_directory ⟨"a/b.mp4", none, 1, "jpg"⟩)
      = makedirs fs (get_output_directory ⟨"a/b.mp4", none, 1, "jpg"⟩)) :=
  c7_output_directory ⟨"a/b.mp4", none, 1, "jpg"⟩ ⟨true, 2, 3, [1, 2]⟩ (by decide)

end VTF
